import Mathlib

/-!
Verification of the tools-metadata generation pipeline in
`plugins/juju-metadata/toolsmetadata.go`.

The Go file is shallowly embedded: the two functions defined there,
`ToolsMetadataCommand.Run` and `fetchToolsHash`, become Lean functions.
Everything they call from outside the repository (juju-core environs,
tools and simplestreams packages, `net/url`, `net/http`, `crypto/sha256`,
`path/filepath`, `utils`) is an external collaborator and is modelled as
an oracle field of the `Ext` structure, so theorems quantify over every
possible behaviour of those collaborators.  The observable behaviour of a
run is a trace of events (fetches, record assembly, serialization,
progress lines, successful storage writes) paired with an outcome
(normal return, error return, or Go panic).
-/

namespace ToolsMetadataGen

/-- A Go error value, identified by its message. -/
structure GoError where
  msg : String
deriving DecidableEq, Repr

/-- The part of a parsed `net/url.URL` that `Run` consumes: the `Path`
component (line 82 of the source). -/
structure URL where
  path : String
deriving DecidableEq, Repr

/-- An HTTP response body as the transport delivers it: the bytes that can
be read before EOF, and, when the connection breaks partway, the read error
that `io.Copy` reports after having consumed exactly `data`. -/
structure Body where
  data : List UInt8
  readErr : Option GoError
deriving DecidableEq, Repr

/-- An HTTP response: status code plus body.  `fetchToolsHash` receives the
whole response; whether it looks at the status code is exactly what claim
C10 is about. -/
structure HttpResponse where
  statusCode : Nat
  body : Body
deriving DecidableEq, Repr

/-- The fields of one discovered tool that `Run` reads (lines 78 and
98-101): `t.URL`, `t.Version.Series`, `t.Version.Number.String()` (stored
already rendered, since `version.Number` printing is external) and
`t.Version.Arch`. -/
structure Tool where
  url : String
  series : String
  numberString : String
  arch : String
deriving DecidableEq, Repr

/-- The record type `tools.ToolsMetadata` as populated by `Run`
(lines 98-106). Here `size` is
a Go `int64`; byte counts in this model are list lengths, far below any
overflow boundary, so plain `Int` is faithful. -/
structure ToolsMetadata where
  release : String
  version : String
  arch : String
  path : String
  fileType : String
  size : Int
  sha256 : String
deriving DecidableEq, Repr

/-- The external collaborators of the source file, as oracles:
* `newFromName` — `environs.NewFromName` (line 54); the environ value
  itself is folded into the storage oracles below;
* `normalizePath` — `utils.NormalizePath` (line 60);
* `serveLocal` — `localstorage.Serve` (line 61); the listener address is
  unobserved by any claim;
* `findTools` — `tools.FindTools` (line 71), already applied to the
  current major version and empty filter;
* `parseURL` — `url.Parse` (line 78), restricted to the one field read;
* `httpGet` — `http.Get` (line 147);
* `sha256Hex` — the composite of `sha256` hashing of exactly the given
  bytes and rendering with the hex format verb (lines 90, 95, 151-152);
* `marshal` — `tools.MarshalToolsMetadataJSON` (line 109), returning the
  index and products documents;
* `storageURL` / `storagePut` — `env.Storage().URL` and
  `env.Storage().Put` (lines 125, 136), for whichever storage is active;
* `joinPath` — `filepath.Join` (line 123);
* `defaultIndexPath`, `unsignedSuffix`, `productMetadataPath` — the
  constants `simplestreams.DefaultIndexPath`, `simplestreams.UnsignedSuffix`
  and `tools.ProductMetadataPath` (lines 117-118). -/
structure Ext where
  newFromName : Except GoError Unit
  normalizePath : String → String
  serveLocal : Except GoError Unit
  findTools : Except GoError (List Tool)
  parseURL : String → Except GoError URL
  httpGet : String → Except GoError HttpResponse
  sha256Hex : List UInt8 → String
  marshal : List ToolsMetadata → Except GoError (List UInt8 × List UInt8)
  storageURL : String → Except GoError String
  storagePut : String → List UInt8 → Except GoError Unit
  joinPath : String → String → String
  defaultIndexPath : String
  unsignedSuffix : String
  productMetadataPath : String

/-- The two flags of `ToolsMetadataCommand` (lines 33-37). -/
structure ToolsMetadataCommand where
  fetch : Bool
  metadataDir : String
deriving DecidableEq, Repr

/-- Observable events of one run, in order:
* `fetched url` — the progress line printed immediately before invoking
  `fetchToolsHash` (line 89);
* `assembled t m` — record `m` stored into the metadata slice for
  candidate `t` (lines 98-106);
* `marshalled` — `tools.MarshalToolsMetadataJSON` invoked (line 109);
* `writingLine p` — the `Writing p` progress line (line 131);
* `wrote path data` — a `Put` call that returned without error (line 136). -/
inductive Event where
  | fetched (url : String)
  | assembled (t : Tool) (m : ToolsMetadata)
  | marshalled
  | writingLine (displayPath : String)
  | wrote (path : String) (data : List UInt8)
deriving DecidableEq, Repr

/-- How a run ends: normal return, error return, or Go panic. -/
inductive Outcome where
  | ok
  | fail (e : GoError)
  | panicked (msg : String)
deriving DecidableEq, Repr

/-- Intermediate result of a stage of the run. -/
inductive StepResult (α : Type) where
  | ok (a : α)
  | fail (e : GoError)
  | panicked (msg : String)
deriving DecidableEq, Repr

/-- The function `fetchToolsHash` (lines 146-155), returning the Go triple
`(size, sha256hash, err)`.  The `hash.Hash` state is modelled as the list
of bytes that were written into it, `none` standing for the nil hash
returned when `http.Get` fails.  `io.Copy` writes the readable prefix of
the body into the hash and returns its length together with the read
error, if any; the status code of the response is never consulted. -/
def fetchToolsHash (ext : Ext) (url : String) :
    Int × Option (List UInt8) × Option GoError :=
  match ext.httpGet url with
  | .error e => (0, none, some e)
  | .ok resp => ((resp.body.data.length : Int), some resp.body.data, resp.body.readErr)

/-- The body of the per-candidate loop of `Run` (lines 77-107) for one
tool: parse the URL; take `u.Path[1:]`, which in Go panics when the path
is empty (slice lower bound past the end); when fetching, call
`fetchToolsHash` and, on a nil error, hex-render the hash sum (a nil hash
there would be a nil dereference, which `fetchToolsHash` makes
unreachable by always pairing a nil hash with a non-nil error); finally
assemble the `ToolsMetadata` record. -/
def processTool (ext : Ext) (fetch : Bool) (t : Tool) :
    List Event × StepResult ToolsMetadata :=
  match ext.parseURL t.url with
  | .error e => ([], .fail e)
  | .ok u =>
    if u.path = "" then
      ([], .panicked "runtime error: slice bounds out of range")
    else
      if fetch then
        match fetchToolsHash ext t.url with
        | (_, _, some e) => ([.fetched t.url], .fail e)
        | (_, none, none) =>
          ([.fetched t.url], .panicked "runtime error: nil pointer dereference")
        | (size, some bytes, none) =>
          let m : ToolsMetadata :=
            { release := t.series, version := t.numberString, arch := t.arch
              path := u.path.drop 1, fileType := "tar.gz"
              size := size, sha256 := ext.sha256Hex bytes }
          ([.fetched t.url, .assembled t m], .ok m)
      else
        let m : ToolsMetadata :=
          { release := t.series, version := t.numberString, arch := t.arch
            path := u.path.drop 1, fileType := "tar.gz"
            size := 0, sha256 := "" }
        ([.assembled t m], .ok m)

/-- The whole per-candidate loop (lines 76-107), in discovery order,
returning the first failure or the assembled record sequence. -/
def processTools (ext : Ext) (fetch : Bool) :
    List Tool → List Event × StepResult (List ToolsMetadata)
  | [] => ([], .ok [])
  | t :: ts =>
    match processTool ext fetch t with
    | (evs, .fail e) => (evs, .fail e)
    | (evs, .panicked s) => (evs, .panicked s)
    | (evs, .ok m) =>
      match processTools ext fetch ts with
      | (evs2, .ok ms) => (evs ++ evs2, .ok (m :: ms))
      | (evs2, .fail e) => (evs ++ evs2, .fail e)
      | (evs2, .panicked s) => (evs ++ evs2, .panicked s)

/-- The publish loop (lines 120-139): for each object, resolve the
display path — the local join when `metadataDir` is non-empty, otherwise
the storage URL, whose failure returns that error — print the `Writing`
line, and `Put` the object.  The `if err != nil` at line 133 tests an
outer `err` that is provably nil at that point (the URL error at line 125
shadows it and every earlier assignment to it was already checked), so it
contributes no branch. -/
def writeObjects (ext : Ext) (metadataDir : String) :
    List (String × List UInt8) → List Event × Outcome
  | [] => ([], .ok)
  | (objPath, objData) :: rest =>
    match (if metadataDir ≠ "" then Except.ok (ext.joinPath metadataDir objPath)
           else ext.storageURL objPath) with
    | .error e => ([], .fail e)
    | .ok d =>
      match ext.storagePut objPath objData with
      | .error e => ([.writingLine d], .fail e)
      | .ok _ =>
        match writeObjects ext metadataDir rest with
        | (evs, o) => (.writingLine d :: .wrote objPath objData :: evs, o)

/-- The constant `pathPrefix` (line 29): the fixed prefix for metadata
paths.  (Renamed with a `Str` suffix for this development.) -/
def pathPrefixStr : String := "tools/"

/-- Lines 59-68 of `Run`: when `metadataDir` is non-empty, normalize it
with `utils.NormalizePath` and start the local storage listener, whose
failure is returned; the value is the final `c.metadataDir` used by the
rest of the run. -/
def dirSetup (ext : Ext) (c : ToolsMetadataCommand) : Except GoError String :=
  if c.metadataDir ≠ "" then
    match ext.serveLocal with
    | .error e => Except.error e
    | .ok _ => Except.ok (ext.normalizePath c.metadataDir)
  else Except.ok c.metadataDir

/-- Lines 76-140 of `Run`, after discovery succeeded: run the
per-candidate loop, marshal the index and products documents, and write
the two objects under `pathPrefixStr`. -/
def runTail (ext : Ext) (fetch : Bool) (metadataDir : String)
    (toolsList : List Tool) : List Event × Outcome :=
  match processTools ext fetch toolsList with
  | (evs, .fail e) => (evs, .fail e)
  | (evs, .panicked s) => (evs, .panicked s)
  | (evs, .ok metadata) =>
    match ext.marshal metadata with
    | .error e => (evs ++ [.marshalled], .fail e)
    | .ok (index, products) =>
      match writeObjects ext metadataDir
          [(pathPrefixStr ++ ext.defaultIndexPath ++ ext.unsignedSuffix, index),
           (pathPrefixStr ++ ext.productMetadataPath, products)] with
      | (evs2, o) => (evs ++ [.marshalled] ++ evs2, o)

/-- The method `ToolsMetadataCommand.Run` (lines 53-141): build the environ; in
local-directory mode normalize the directory and start the local storage
listener; find the tools; then `runTail`. -/
def Run (ext : Ext) (c : ToolsMetadataCommand) : List Event × Outcome :=
  match ext.newFromName with
  | .error e => ([], .fail e)
  | .ok _ =>
    match dirSetup ext c with
    | .error e => ([], .fail e)
    | .ok metadataDir =>
      match ext.findTools with
      | .error e => ([], .fail e)
      | .ok toolsList => runTail ext c.fetch metadataDir toolsList

/-- The payloads of the `Put` calls that succeeded, in order. -/
def wroteList : List Event → List (String × List UInt8)
  | [] => []
  | .wrote p d :: evs => (p, d) :: wroteList evs
  | .fetched _ :: evs => wroteList evs
  | .assembled _ _ :: evs => wroteList evs
  | .marshalled :: evs => wroteList evs
  | .writingLine _ :: evs => wroteList evs

/-- The arguments of the `Writing` progress lines, in order. -/
def writingList : List Event → List String
  | [] => []
  | .writingLine d :: evs => d :: writingList evs
  | .fetched _ :: evs => writingList evs
  | .assembled _ _ :: evs => writingList evs
  | .marshalled :: evs => writingList evs
  | .wrote _ _ :: evs => writingList evs

/-- Events that the per-candidate loop can emit. -/
def isProcessEvent : Event → Bool
  | .fetched _ => true
  | .assembled _ _ => true
  | _ => false

/-- Events that the publish loop can emit. -/
def isWriteEvent : Event → Bool
  | .writingLine _ => true
  | .wrote _ _ => true
  | _ => false

/-- Follows the words of the spec: the URL path component with its
leading separator removed.  This is the spec-side derivation that claim
C2 compares against the code-side `u.path.drop 1`.  (Written on the
character list so that it evaluates inside the kernel.) -/
def specPathDerivation (s : String) : String :=
  match s.data with
  | [] => s
  | c :: rest => if c = '/' then String.mk rest else s

/-- Whether a string begins with the path separator.  (Written on the
character list so that it evaluates inside the kernel.) -/
def startsWithSep (s : String) : Bool :=
  match s.data with
  | [] => false
  | c :: _ => c == '/'

lemma wroteList_append (a b : List Event) :
    wroteList (a ++ b) = wroteList a ++ wroteList b := by
  induction a with
  | nil => simp [wroteList]
  | cons e a ih => cases e <;> simp [wroteList, ih]

lemma writingList_append (a b : List Event) :
    writingList (a ++ b) = writingList a ++ writingList b := by
  induction a with
  | nil => simp [writingList]
  | cons e a ih => cases e <;> simp [writingList, ih]

lemma wroteList_eq_nil_of_benign {evs : List Event}
    (h : ∀ e ∈ evs, isProcessEvent e = true) : wroteList evs = [] := by
  induction evs with
  | nil => rfl
  | cons e evs ih =>
    have he := h e (List.mem_cons_self e evs)
    have hrest : ∀ x ∈ evs, isProcessEvent x = true :=
      fun x hx => h x (List.mem_cons_of_mem e hx)
    cases e <;> simp [isProcessEvent] at he <;> simp [wroteList, ih hrest]

lemma writingList_eq_nil_of_benign {evs : List Event}
    (h : ∀ e ∈ evs, isProcessEvent e = true) : writingList evs = [] := by
  induction evs with
  | nil => rfl
  | cons e evs ih =>
    have he := h e (List.mem_cons_self e evs)
    have hrest : ∀ x ∈ evs, isProcessEvent x = true :=
      fun x hx => h x (List.mem_cons_of_mem e hx)
    cases e <;> simp [isProcessEvent] at he <;> simp [writingList, ih hrest]

lemma marshalled_not_mem_of_benign {evs : List Event}
    (h : ∀ e ∈ evs, isProcessEvent e = true) : Event.marshalled ∉ evs := by
  intro hmem
  have := h Event.marshalled hmem
  simp [isProcessEvent] at this

lemma processTool_events_benign (ext : Ext) (f : Bool) (t : Tool) :
    ∀ e ∈ (processTool ext f t).1, isProcessEvent e = true := by
  intro e he
  unfold processTool at he
  cases hp : ext.parseURL t.url <;> rw [hp] at he <;> dsimp only at he
  case error => simp at he
  case ok u =>
    by_cases hu : u.path = ""
    · rw [if_pos hu] at he; simp at he
    · rw [if_neg hu] at he
      cases f with
      | false =>
        simp at he
        subst he; rfl
      | true =>
        rcases hf : fetchToolsHash ext t.url with ⟨sz, hb, er⟩
        rw [hf] at he
        cases hb <;> cases er <;> simp at he
        all_goals first
          | (subst he; rfl)
          | (rcases he with he | he <;> subst he <;> rfl)

lemma processTools_events_benign (ext : Ext) (f : Bool) (ts : List Tool) :
    ∀ e ∈ (processTools ext f ts).1, isProcessEvent e = true := by
  induction ts with
  | nil => intro e he; simp [processTools] at he
  | cons t ts ih =>
    intro e he
    unfold processTools at he
    rcases hp : processTool ext f t with ⟨evs, r⟩
    rw [hp] at he
    have hbenign : ∀ x ∈ evs, isProcessEvent x = true := by
      intro x hx
      exact processTool_events_benign ext f t x (by rw [hp]; exact hx)
    cases r with
    | fail er => exact hbenign e he
    | panicked s => exact hbenign e he
    | ok m =>
      rcases hq : processTools ext f ts with ⟨evs2, r2⟩
      rw [hq] at he
      have hbenign2 : ∀ x ∈ evs2, isProcessEvent x = true := by
        intro x hx
        exact ih x (by rw [hq]; exact hx)
      cases r2 <;> dsimp only at he <;> rw [List.mem_append] at he <;>
        rcases he with he | he
      all_goals first | exact hbenign e he | exact hbenign2 e he

lemma writeObjects_events_write (ext : Ext) (dir : String)
    (objs : List (String × List UInt8)) :
    ∀ e ∈ (writeObjects ext dir objs).1, isWriteEvent e = true := by
  induction objs with
  | nil => intro e he; simp [writeObjects] at he
  | cons od rest ih =>
    rcases od with ⟨p, dta⟩
    intro e he
    unfold writeObjects at he
    cases hd : (if dir ≠ "" then Except.ok (ext.joinPath dir p)
                else ext.storageURL p) <;> rw [hd] at he <;> dsimp only at he
    case error => simp at he
    case ok d =>
      cases hput : ext.storagePut p dta <;> rw [hput] at he <;> dsimp only at he
      case error =>
        simp at he; subst he; rfl
      case ok =>
        rcases hr : writeObjects ext dir rest with ⟨evs, o⟩
        rw [hr] at he
        simp at he
        rcases he with he | he | he
        · subst he; rfl
        · subst he; rfl
        · exact ih e (by rw [hr]; exact he)

lemma writeObjects_ok_wrote (ext : Ext) (dir : String) :
    ∀ (objs : List (String × List UInt8)) (evs : List Event),
      writeObjects ext dir objs = (evs, .ok) → wroteList evs = objs := by
  intro objs
  induction objs with
  | nil =>
    intro evs h
    unfold writeObjects at h
    rcases h with ⟨⟩
    rfl
  | cons od rest ih =>
    rcases od with ⟨p, dta⟩
    intro evs h
    unfold writeObjects at h
    cases hd : (if dir ≠ "" then Except.ok (ext.joinPath dir p)
                else ext.storageURL p) <;> rw [hd] at h <;> dsimp only at h
    case error => simp at h
    case ok d =>
      cases hput : ext.storagePut p dta <;> rw [hput] at h <;> dsimp only at h
      case error => simp at h
      case ok =>
        rcases hr : writeObjects ext dir rest with ⟨evs2, o⟩
        rw [hr] at h
        dsimp only at h
        rcases h with ⟨⟩
        simp [wroteList, ih evs2 hr]

lemma writeObjects_ok_lines (ext : Ext) (dir : String) (hdir : dir ≠ "") :
    ∀ (objs : List (String × List UInt8)) (evs : List Event),
      writeObjects ext dir objs = (evs, .ok) →
      writingList evs = objs.map (fun x => ext.joinPath dir x.1) := by
  intro objs
  induction objs with
  | nil =>
    intro evs h
    unfold writeObjects at h
    rcases h with ⟨⟩
    rfl
  | cons od rest ih =>
    rcases od with ⟨p, dta⟩
    intro evs h
    unfold writeObjects at h
    rw [if_pos hdir] at h
    dsimp only at h
    cases hput : ext.storagePut p dta <;> rw [hput] at h <;> dsimp only at h
    case error => simp at h
    case ok =>
      rcases hr : writeObjects ext dir rest with ⟨evs2, o⟩
      rw [hr] at h
      dsimp only at h
      rcases h with ⟨⟩
      simp [writingList, ih evs2 hr]

lemma writeObjects_fail_wrote (ext : Ext) (dir : String) :
    ∀ (objs : List (String × List UInt8)) (evs : List Event) (e : GoError),
      writeObjects ext dir objs = (evs, .fail e) →
      ∃ n, n < objs.length ∧ wroteList evs = objs.take n := by
  intro objs
  induction objs with
  | nil =>
    intro evs e h
    unfold writeObjects at h
    simp at h
  | cons od rest ih =>
    rcases od with ⟨p, dta⟩
    intro evs e h
    unfold writeObjects at h
    cases hd : (if dir ≠ "" then Except.ok (ext.joinPath dir p)
                else ext.storageURL p) <;> rw [hd] at h <;> dsimp only at h
    case error =>
      rcases h with ⟨⟩
      exact ⟨0, by simp, rfl⟩
    case ok d =>
      cases hput : ext.storagePut p dta <;> rw [hput] at h <;> dsimp only at h
      case error =>
        rcases h with ⟨⟩
        exact ⟨0, by simp, rfl⟩
      case ok =>
        rcases hr : writeObjects ext dir rest with ⟨evs2, o⟩
        rw [hr] at h
        dsimp only at h
        rcases h with ⟨⟩
        rcases ih evs2 e hr with ⟨n, hlt, htake⟩
        exact ⟨n + 1, by simpa using hlt, by simp [wroteList, htake]⟩

lemma fetchToolsHash_ok_inv {ext : Ext} {url : String} {sz : Int}
    {bytes : List UInt8} (h : fetchToolsHash ext url = (sz, some bytes, none)) :
    ∃ resp, ext.httpGet url = Except.ok resp ∧ resp.body.readErr = none ∧
      resp.body.data = bytes ∧ sz = (bytes.length : Int) := by
  unfold fetchToolsHash at h
  cases hg : ext.httpGet url <;> rw [hg] at h <;> dsimp only at h
  · simp at h
  · rename_i resp
    rw [Prod.mk.injEq, Prod.mk.injEq] at h
    rcases h with ⟨h1, h2, h3⟩
    rw [Option.some.injEq] at h2
    exact ⟨resp, rfl, h3, h2, by rw [← h1, h2]⟩

lemma dirSetup_ok_local {ext : Ext} {c : ToolsMetadataCommand} {dir : String}
    (h : dirSetup ext c = Except.ok dir) (hne : c.metadataDir ≠ "") :
    dir = ext.normalizePath c.metadataDir := by
  unfold dirSetup at h
  rw [if_pos hne] at h
  cases hs : ext.serveLocal <;> rw [hs] at h <;> dsimp only at h
  case error => simp at h
  case ok => rcases h with ⟨⟩; rfl

lemma processTool_assembled_inv {ext : Ext} {f : Bool} {t' t : Tool}
    {m : ToolsMetadata} (h : Event.assembled t m ∈ (processTool ext f t').1) :
    t' = t ∧ ∃ u, ext.parseURL t.url = Except.ok u ∧ u.path ≠ "" ∧
      m.release = t.series ∧ m.version = t.numberString ∧ m.arch = t.arch ∧
      m.path = u.path.drop 1 ∧ m.fileType = "tar.gz" ∧
      (f = false → m.size = 0 ∧ m.sha256 = "") ∧
      (f = true → ∃ resp, ext.httpGet t.url = Except.ok resp ∧
        resp.body.readErr = none ∧
        m.size = (resp.body.data.length : Int) ∧
        m.sha256 = ext.sha256Hex resp.body.data) := by
  unfold processTool at h
  cases hp : ext.parseURL t'.url <;> rw [hp] at h <;> dsimp only at h
  case error => simp at h
  case ok u =>
    by_cases hu : u.path = ""
    · rw [if_pos hu] at h; simp at h
    · rw [if_neg hu] at h
      cases f with
      | false =>
        rw [if_neg (by simp)] at h
        dsimp only at h
        rw [List.mem_singleton] at h
        injection h with h1 h2
        subst h1
        subst h2
        exact ⟨rfl, u, hp, hu, rfl, rfl, rfl, rfl, rfl,
          fun _ => ⟨rfl, rfl⟩, fun htr => Bool.noConfusion htr⟩
      | true =>
        rw [if_pos rfl] at h
        rcases hf : fetchToolsHash ext t'.url with ⟨sz, hb, er⟩
        rw [hf] at h
        cases hb <;> cases er <;> dsimp only at h
        · simp at h
        · simp at h
        · rw [List.mem_cons, List.mem_singleton] at h
          rcases h with h | h
          · exact absurd h (by simp)
          · injection h with h1 h2
            subst h1
            subst h2
            rcases fetchToolsHash_ok_inv hf with ⟨resp, hg, hre, hdata, hsz⟩
            exact ⟨rfl, u, hp, hu, rfl, rfl, rfl, rfl, rfl,
              fun hfa => Bool.noConfusion hfa,
              fun _ => ⟨resp, hg, hre, by rw [hsz, hdata], by rw [hdata]⟩⟩
        · simp at h

lemma processTools_assembled_inv {ext : Ext} {f : Bool} {t : Tool}
    {m : ToolsMetadata} {ts : List Tool}
    (h : Event.assembled t m ∈ (processTools ext f ts).1) :
    ∃ t', t' ∈ ts ∧ Event.assembled t m ∈ (processTool ext f t').1 := by
  induction ts with
  | nil => simp [processTools] at h
  | cons t1 ts ih =>
    unfold processTools at h
    rcases hp : processTool ext f t1 with ⟨evs, r⟩
    rw [hp] at h
    cases r with
    | fail e =>
      exact ⟨t1, List.mem_cons_self t1 ts, by rw [hp]; exact h⟩
    | panicked s =>
      exact ⟨t1, List.mem_cons_self t1 ts, by rw [hp]; exact h⟩
    | ok mm =>
      rcases hq : processTools ext f ts with ⟨evs2, r2⟩
      rw [hq] at h
      cases r2 <;> dsimp only at h <;> rw [List.mem_append] at h <;>
        rcases h with h | h
      all_goals first
        | exact ⟨t1, List.mem_cons_self t1 ts, by rw [hp]; exact h⟩
        | (rcases ih (by rw [hq]; exact h) with ⟨t', ht', hmem⟩
           exact ⟨t', List.mem_cons_of_mem t1 ht', hmem⟩)

lemma runTail_assembled_inv {ext : Ext} {f : Bool} {dir : String}
    {ts : List Tool} {t : Tool} {m : ToolsMetadata}
    (h : Event.assembled t m ∈ (runTail ext f dir ts).1) :
    Event.assembled t m ∈ (processTools ext f ts).1 := by
  unfold runTail at h
  rcases hp : processTools ext f ts with ⟨evs, r⟩
  rw [hp] at h
  cases r with
  | fail e => dsimp only at h ⊢; exact h
  | panicked s => dsimp only at h ⊢; exact h
  | ok metadata =>
    dsimp only
    dsimp only at h
    cases hm : ext.marshal metadata with
    | error e =>
      rw [hm] at h
      dsimp only at h
      rw [List.mem_append] at h
      rcases h with h | h
      · exact h
      · simp at h
    | ok pair =>
      rcases pair with ⟨index, products⟩
      rw [hm] at h
      dsimp only at h
      rcases hw : writeObjects ext dir
          [(pathPrefixStr ++ ext.defaultIndexPath ++ ext.unsignedSuffix, index),
           (pathPrefixStr ++ ext.productMetadataPath, products)] with ⟨evs2, o⟩
      rw [hw] at h
      dsimp only at h
      rw [List.mem_append, List.mem_append] at h
      rcases h with (h | h) | h
      · exact h
      · simp at h
      · have := writeObjects_events_write ext dir _ _ (by rw [hw]; exact h)
        simp [isWriteEvent] at this

lemma Run_assembled_inv {ext : Ext} {c : ToolsMetadataCommand} {t : Tool}
    {m : ToolsMetadata} (h : Event.assembled t m ∈ (Run ext c).1) :
    ∃ ts, ext.findTools = Except.ok ts ∧
      Event.assembled t m ∈ (processTools ext c.fetch ts).1 := by
  unfold Run at h
  cases hn : ext.newFromName <;> rw [hn] at h <;> dsimp only at h
  case error => simp at h
  case ok =>
    cases hd : dirSetup ext c <;> rw [hd] at h <;> dsimp only at h
    case error => simp at h
    case ok dir =>
      cases hf : ext.findTools <;> rw [hf] at h <;> dsimp only at h
      case error => simp at h
      case ok ts => exact ⟨ts, rfl, runTail_assembled_inv h⟩

lemma runTail_ok_inv {ext : Ext} {f : Bool} {dir : String} {ts : List Tool}
    {evs : List Event} (h : runTail ext f dir ts = (evs, .ok)) :
    ∃ evs1 evs2 metadata index products,
      processTools ext f ts = (evs1, .ok metadata) ∧
      ext.marshal metadata = Except.ok (index, products) ∧
      writeObjects ext dir
        [(pathPrefixStr ++ ext.defaultIndexPath ++ ext.unsignedSuffix, index),
         (pathPrefixStr ++ ext.productMetadataPath, products)] = (evs2, .ok) ∧
      evs = evs1 ++ [.marshalled] ++ evs2 := by
  unfold runTail at h
  rcases hp : processTools ext f ts with ⟨evs1, r⟩
  rw [hp] at h
  cases r with
  | fail e => simp at h
  | panicked s => simp at h
  | ok metadata =>
    dsimp only at h
    cases hm : ext.marshal metadata with
    | error e => rw [hm] at h; simp at h
    | ok pair =>
      rcases pair with ⟨index, products⟩
      rw [hm] at h
      dsimp only at h
      rcases hw : writeObjects ext dir
          [(pathPrefixStr ++ ext.defaultIndexPath ++ ext.unsignedSuffix, index),
           (pathPrefixStr ++ ext.productMetadataPath, products)] with ⟨evs2, o⟩
      rw [hw] at h
      dsimp only at h
      rcases h with ⟨⟩
      exact ⟨evs1, evs2, metadata, index, products, rfl, hm, hw, rfl⟩

lemma runTail_fail_wrote {ext : Ext} {f : Bool} {dir : String}
    {ts : List Tool} {evs : List Event} {e : GoError}
    (h : runTail ext f dir ts = (evs, .fail e)) :
    wroteList evs = [] ∨
      ∃ i, wroteList evs =
        [(pathPrefixStr ++ ext.defaultIndexPath ++ ext.unsignedSuffix, i)] := by
  unfold runTail at h
  rcases hp : processTools ext f ts with ⟨evs1, r⟩
  rw [hp] at h
  have hbenign : wroteList evs1 = [] :=
    wroteList_eq_nil_of_benign (fun x hx =>
      processTools_events_benign ext f ts x (by rw [hp]; exact hx))
  cases r with
  | fail er =>
    dsimp only at h
    rcases h with ⟨⟩
    exact Or.inl hbenign
  | panicked s => simp at h
  | ok metadata =>
    dsimp only at h
    cases hm : ext.marshal metadata with
    | error er =>
      rw [hm] at h
      dsimp only at h
      rcases h with ⟨⟩
      exact Or.inl (by simp [wroteList_append, hbenign, wroteList])
    | ok pair =>
      rcases pair with ⟨index, products⟩
      rw [hm] at h
      dsimp only at h
      rcases hw : writeObjects ext dir
          [(pathPrefixStr ++ ext.defaultIndexPath ++ ext.unsignedSuffix, index),
           (pathPrefixStr ++ ext.productMetadataPath, products)] with ⟨evs2, o⟩
      rw [hw] at h
      dsimp only at h
      rcases h with ⟨⟩
      rcases writeObjects_fail_wrote ext dir _ _ _ hw with ⟨n, hlt, htake⟩
      have hw2 : wroteList (evs1 ++ [Event.marshalled] ++ evs2) = wroteList evs2 := by
        simp [wroteList_append, hbenign, wroteList]
      have hlt2 : n < 2 := by simpa using hlt
      interval_cases n
      · rw [hw2, htake]
        exact Or.inl rfl
      · rw [hw2, htake]
        exact Or.inr ⟨index, rfl⟩

lemma Run_ok_inv {ext : Ext} {c : ToolsMetadataCommand} {evs : List Event}
    (h : Run ext c = (evs, .ok)) :
    ∃ ts dir evs1 evs2 metadata index products,
      ext.newFromName = Except.ok () ∧ dirSetup ext c = Except.ok dir ∧
      ext.findTools = Except.ok ts ∧
      processTools ext c.fetch ts = (evs1, .ok metadata) ∧
      ext.marshal metadata = Except.ok (index, products) ∧
      writeObjects ext dir
        [(pathPrefixStr ++ ext.defaultIndexPath ++ ext.unsignedSuffix, index),
         (pathPrefixStr ++ ext.productMetadataPath, products)] = (evs2, .ok) ∧
      evs = evs1 ++ [.marshalled] ++ evs2 := by
  unfold Run at h
  cases hn : ext.newFromName <;> rw [hn] at h <;> dsimp only at h
  case error => simp at h
  case ok u =>
    cases u
    cases hd : dirSetup ext c <;> rw [hd] at h <;> dsimp only at h
    case error => simp at h
    case ok dir =>
      cases hf : ext.findTools <;> rw [hf] at h <;> dsimp only at h
      case error => simp at h
      case ok ts =>
        rcases runTail_ok_inv h with ⟨evs1, evs2, metadata, index, products,
          hp, hm, hw, hevs⟩
        exact ⟨ts, dir, evs1, evs2, metadata, index, products,
          rfl, rfl, rfl, hp, hm, hw, hevs⟩

lemma Run_fail_wrote {ext : Ext} {c : ToolsMetadataCommand}
    {evs : List Event} {e : GoError} (h : Run ext c = (evs, .fail e)) :
    wroteList evs = [] ∨
      ∃ i, wroteList evs =
        [(pathPrefixStr ++ ext.defaultIndexPath ++ ext.unsignedSuffix, i)] := by
  unfold Run at h
  cases hn : ext.newFromName <;> rw [hn] at h <;> dsimp only at h
  case error => rcases h with ⟨⟩; exact Or.inl rfl
  case ok =>
    cases hd : dirSetup ext c <;> rw [hd] at h <;> dsimp only at h
    case error => rcases h with ⟨⟩; exact Or.inl rfl
    case ok dir =>
      cases hf : ext.findTools <;> rw [hf] at h <;> dsimp only at h
      case error => rcases h with ⟨⟩; exact Or.inl rfl
      case ok ts => exact runTail_fail_wrote h

lemma dirSetup_ok_of (ext : Ext) (c : ToolsMetadataCommand)
    (hserve : c.metadataDir ≠ "" → ext.serveLocal = Except.ok ()) :
    ∃ dir, dirSetup ext c = Except.ok dir := by
  by_cases hd : c.metadataDir = ""
  · exact ⟨c.metadataDir, by simp [dirSetup, hd]⟩
  · exact ⟨ext.normalizePath c.metadataDir, by simp [dirSetup, hd, hserve hd]⟩

/-! Concrete fixtures used by witnesses and counterexamples. -/

/-- The candidate of the spec scenario in section 8. -/
def toolA : Tool :=
  { url := "https://host/tools/1.2.3/ubuntu-amd64.tar.gz"
    series := "ubuntu", numberString := "1.2.3", arch := "amd64" }

/-- A fully cooperative external world: one candidate, a 3-byte body,
every collaborator succeeding. -/
def extOk : Ext :=
  { newFromName := .ok ()
    normalizePath := fun s => s
    serveLocal := .ok ()
    findTools := .ok [toolA]
    parseURL := fun _ => .ok { path := "/tools/1.2.3/ubuntu-amd64.tar.gz" }
    httpGet := fun _ => .ok { statusCode := 200, body := { data := [0, 1, 2], readErr := none } }
    sha256Hex := fun _ => "digestD"
    marshal := fun _ => .ok ([10], [20])
    storageURL := fun p => .ok ("https://store/" ++ p)
    storagePut := fun _ _ => .ok ()
    joinPath := fun d p => d ++ "/" ++ p
    defaultIndexPath := "streams/v1/index"
    unsignedSuffix := ".json"
    productMetadataPath := "streams/v1/products.json" }

def cmdFetch : ToolsMetadataCommand := { fetch := true, metadataDir := "" }

def cmdLocal : ToolsMetadataCommand := { fetch := true, metadataDir := "/tmp/out" }

/-- The record `Run extOk cmdFetch` assembles for `toolA`. -/
def recA : ToolsMetadata :=
  { release := "ubuntu", version := "1.2.3", arch := "amd64"
    path := "tools/1.2.3/ubuntu-amd64.tar.gz", fileType := "tar.gz"
    size := 3, sha256 := "digestD" }

/-! Claim theorems. -/

/-- C1: for every candidate processed by `Run`, fetch mode disabled gives
a record with `size = 0` and `sha256 = ""`; fetch mode enabled with a
successful fetch gives `size` equal to the total number of bytes read
from the candidate URL and `sha256` equal to the hex SHA-256 digest of
exactly those bytes. -/
theorem C1_record_size_and_hash (ext : Ext) (c : ToolsMetadataCommand)
    (t : Tool) (m : ToolsMetadata)
    (h : Event.assembled t m ∈ (Run ext c).1) :
    (c.fetch = false → m.size = 0 ∧ m.sha256 = "") ∧
    (c.fetch = true → ∃ resp, ext.httpGet t.url = Except.ok resp ∧
      resp.body.readErr = none ∧
      m.size = (resp.body.data.length : Int) ∧
      m.sha256 = ext.sha256Hex resp.body.data) := by
  rcases Run_assembled_inv h with ⟨ts, hf, hmem⟩
  rcases processTools_assembled_inv hmem with ⟨t', ht', hmem2⟩
  rcases processTool_assembled_inv hmem2 with
    ⟨heq, u, hp, hu, _, _, _, _, _, hfalse, htrue⟩
  exact ⟨hfalse, htrue⟩

theorem C1_witness :
    ∃ resp, extOk.httpGet toolA.url = Except.ok resp ∧
      resp.body.readErr = none ∧
      recA.size = (resp.body.data.length : Int) ∧
      recA.sha256 = extOk.sha256Hex resp.body.data :=
  (C1_record_size_and_hash extOk cmdFetch toolA recA (by decide)).2 rfl

/-- The two candidates of the C2 counterexample: one whose URL has a path
component beginning with two separators, one whose path component has no
leading separator at all (Go `url.Parse` accepts both). -/
def tC2a : Tool :=
  { url := "https://host//a", series := "ubuntu", numberString := "1.2.3", arch := "amd64" }

def tC2b : Tool :=
  { url := "x", series := "ubuntu", numberString := "1.2.3", arch := "amd64" }

def extC2 : Ext :=
  { extOk with
    findTools := .ok [tC2a, tC2b]
    parseURL := fun s =>
      if s = "https://host//a" then .ok { path := "//a" } else .ok { path := "x" } }

def cmdNoFetch : ToolsMetadataCommand := { fetch := false, metadataDir := "" }

def recC2a : ToolsMetadata :=
  { release := "ubuntu", version := "1.2.3", arch := "amd64"
    path := "/a", fileType := "tar.gz", size := 0, sha256 := "" }

def recC2b : ToolsMetadata :=
  { release := "ubuntu", version := "1.2.3", arch := "amd64"
    path := "", fileType := "tar.gz", size := 0, sha256 := "" }

/-- C2 counterexample: the code takes `u.Path[1:]`, not a separator
strip.  For path component `//a` the emitted path `/a` does equal the
component with its leading separator removed, yet it begins with a
separator, refuting the claimed consequence; for path component `x` the
emitted path is the empty string, which differs from the component with
its (absent) leading separator removed. -/
theorem C2_counterexample :
    Event.assembled tC2a recC2a ∈ (Run extC2 cmdNoFetch).1 ∧
    recC2a.path = specPathDerivation "//a" ∧
    startsWithSep recC2a.path = true ∧
    Event.assembled tC2b recC2b ∈ (Run extC2 cmdNoFetch).1 ∧
    extC2.parseURL tC2b.url = Except.ok { path := "x" } ∧
    recC2b.path ≠ specPathDerivation "x" := by
  refine ⟨by decide, by decide, by decide, by decide, rfl, by decide⟩

/-- C2 as amended: for every candidate whose retrieval URL parses with a
path component beginning with a separator, the emitted path equals the
component with its leading separator removed, and it begins with a
separator exactly when the character following the removed one is again a
separator (so only components with a single leading separator yield paths
with no leading separator). -/
theorem C2_amended_path_derivation (ext : Ext) (c : ToolsMetadataCommand)
    (t : Tool) (m : ToolsMetadata) (u : URL)
    (h : Event.assembled t m ∈ (Run ext c).1)
    (hu : ext.parseURL t.url = Except.ok u)
    (hsep : startsWithSep u.path = true) :
    m.path = specPathDerivation u.path ∧
    (startsWithSep m.path = true ↔ startsWithSep (u.path.drop 1) = true) := by
  rcases Run_assembled_inv h with ⟨ts, hf, hmem⟩
  rcases processTools_assembled_inv hmem with ⟨t', ht', hmem2⟩
  rcases processTool_assembled_inv hmem2 with
    ⟨heq, u', hp, hune, _, _, _, hpath, _, _, _⟩
  rw [hu] at hp
  injection hp with hp
  subst hp
  obtain ⟨rest, hdata⟩ : ∃ rest, u.path.data = '/' :: rest := by
    unfold startsWithSep at hsep
    cases hdata : u.path.data with
    | nil => rw [hdata] at hsep; simp at hsep
    | cons c rest =>
      rw [hdata] at hsep
      dsimp only at hsep
      have hc : c = '/' := eq_of_beq hsep
      subst hc
      exact ⟨rest, rfl⟩
  constructor
  · unfold specPathDerivation
    rw [hpath, String.drop_eq, hdata]
    dsimp only
    rw [if_pos rfl]
    rfl
  · rw [hpath]

theorem C2_amended_witness :
    recA.path = specPathDerivation "/tools/1.2.3/ubuntu-amd64.tar.gz" ∧
    (startsWithSep recA.path = true ↔
      startsWithSep (("/tools/1.2.3/ubuntu-amd64.tar.gz").drop 1) = true) :=
  C2_amended_path_derivation extOk cmdFetch toolA recA
    { path := "/tools/1.2.3/ubuntu-amd64.tar.gz" } (by decide) rfl (by decide)

lemma processTool_fetch_fails {ext : Ext} {t : Tool} {e : GoError} {u : URL}
    (hpu : ext.parseURL t.url = Except.ok u) (hune : u.path ≠ "")
    (hfail : (fetchToolsHash ext t.url).2.2 = some e) :
    processTool ext true t = ([Event.fetched t.url], .fail e) := by
  unfold processTool
  rw [hpu]
  dsimp only
  rw [if_neg hune, if_pos rfl]
  rcases hft : fetchToolsHash ext t.url with ⟨sz, hb, er⟩
  rw [hft] at hfail
  dsimp only at hfail
  subst hfail
  cases hb <;> rfl

lemma processTools_first_fail (ext : Ext) (f : Bool) :
    ∀ (ts1 : List Tool),
      (∀ t' ∈ ts1, ∃ evs m, processTool ext f t' = (evs, .ok m)) →
      ∀ (t : Tool) (ts2 : List Tool) (evsT : List Event) (e : GoError),
        processTool ext f t = (evsT, .fail e) →
        ∃ evs, processTools ext f (ts1 ++ t :: ts2) = (evs, .fail e) := by
  intro ts1
  induction ts1 with
  | nil =>
    intro _ t ts2 evsT e hpt
    refine ⟨evsT, ?_⟩
    rw [List.nil_append]
    unfold processTools
    rw [hpt]
  | cons t1 ts1 ih =>
    intro hok t ts2 evsT e hpt
    rcases hok t1 (List.mem_cons_self t1 ts1) with ⟨evs1, m1, h1⟩
    rcases ih (fun t' ht' => hok t' (List.mem_cons_of_mem t1 ht')) t ts2 evsT e hpt
      with ⟨evs', hih⟩
    refine ⟨evs1 ++ evs', ?_⟩
    rw [List.cons_append]
    unfold processTools
    rw [h1]
    dsimp only
    rw [hih]

/-- C3: with fetch mode enabled, a fetch failure on any candidate — all
earlier candidates having been processed successfully — makes `Run`
return that error, with no document serialized and no object written. -/
theorem C3_fetch_failure_aborts (ext : Ext) (c : ToolsMetadataCommand)
    (ts1 ts2 : List Tool) (t : Tool) (e : GoError)
    (hfetch : c.fetch = true)
    (hnew : ext.newFromName = Except.ok ())
    (hserve : c.metadataDir ≠ "" → ext.serveLocal = Except.ok ())
    (hfind : ext.findTools = Except.ok (ts1 ++ t :: ts2))
    (hok : ∀ t' ∈ ts1, ∃ evs m, processTool ext c.fetch t' = (evs, .ok m))
    (hu : ∃ u, ext.parseURL t.url = Except.ok u ∧ u.path ≠ "")
    (hfail : (fetchToolsHash ext t.url).2.2 = some e) :
    (Run ext c).2 = .fail e ∧
    Event.marshalled ∉ (Run ext c).1 ∧
    wroteList (Run ext c).1 = [] := by
  rcases hu with ⟨u, hpu, hune⟩
  have hpt : processTool ext c.fetch t = ([Event.fetched t.url], .fail e) := by
    rw [hfetch]
    exact processTool_fetch_fails hpu hune hfail
  rcases processTools_first_fail ext c.fetch ts1 hok t ts2 _ e hpt with ⟨evs, hpts⟩
  obtain ⟨dir, hdir⟩ := dirSetup_ok_of ext c hserve
  have hrun : Run ext c = (evs, .fail e) := by
    unfold Run
    rw [hnew]
    dsimp only
    rw [hdir]
    dsimp only
    rw [hfind]
    dsimp only
    unfold runTail
    rw [hpts]
  have hbenign : ∀ x ∈ evs, isProcessEvent x = true := fun x hx =>
    processTools_events_benign ext c.fetch (ts1 ++ t :: ts2) x (by rw [hpts]; exact hx)
  rw [hrun]
  exact ⟨rfl, marshalled_not_mem_of_benign hbenign, wroteList_eq_nil_of_benign hbenign⟩

/-- The candidate on which the C3 witness run fails. -/
def toolBad : Tool :=
  { url := "https://host/tools/2.0.0/precise-arm64.tar.gz"
    series := "precise", numberString := "2.0.0", arch := "arm64" }

def extC3 : Ext :=
  { extOk with
    findTools := .ok [toolA, toolBad, toolA]
    httpGet := fun s =>
      if s = "https://host/tools/2.0.0/precise-arm64.tar.gz" then
        .error { msg := "net down" }
      else
        .ok { statusCode := 200, body := { data := [0, 1, 2], readErr := none } } }

theorem C3_witness :
    (Run extC3 cmdFetch).2 = .fail { msg := "net down" } ∧
    Event.marshalled ∉ (Run extC3 cmdFetch).1 ∧
    wroteList (Run extC3 cmdFetch).1 = [] :=
  C3_fetch_failure_aborts extC3 cmdFetch [toolA] [toolA] toolBad
    { msg := "net down" } rfl rfl (fun hne => absurd rfl hne) rfl
    (fun t' ht' => by
      rw [List.mem_singleton] at ht'
      subst ht'
      exact ⟨_, _, rfl⟩)
    ⟨{ path := "/tools/1.2.3/ubuntu-amd64.tar.gz" }, rfl, by decide⟩ rfl

/-- C4: every run either returns success having written both the index
object and the products object, in that order, or returns an error
having written at most the index object; the write trace is always a
prefix of the two-object sequence, so nothing is retried and a written
first object is never removed. -/
theorem C4_publish_all_or_first_only (ext : Ext) (c : ToolsMetadataCommand)
    (evs : List Event) (o : Outcome) (h : Run ext c = (evs, o)) :
    (o = .ok → ∃ i p, wroteList evs =
      [(pathPrefixStr ++ ext.defaultIndexPath ++ ext.unsignedSuffix, i),
       (pathPrefixStr ++ ext.productMetadataPath, p)]) ∧
    (∀ e, o = .fail e → wroteList evs = [] ∨
      ∃ i, wroteList evs =
        [(pathPrefixStr ++ ext.defaultIndexPath ++ ext.unsignedSuffix, i)]) := by
  constructor
  · intro ho
    subst ho
    rcases Run_ok_inv h with
      ⟨ts, dir, evs1, evs2, metadata, index, products, _, _, _, hp, hm, hw, hevs⟩
    subst hevs
    have h1 : wroteList evs1 = [] := wroteList_eq_nil_of_benign (fun x hx =>
      processTools_events_benign ext c.fetch ts x (by rw [hp]; exact hx))
    have h2 := writeObjects_ok_wrote ext dir _ _ hw
    exact ⟨index, products, by simp [wroteList_append, h1, wroteList, h2]⟩
  · intro e ho
    subst ho
    exact Run_fail_wrote h

theorem C4_witness :
    ∃ i p, wroteList (Run extOk cmdFetch).1 =
      [(pathPrefixStr ++ extOk.defaultIndexPath ++ extOk.unsignedSuffix, i),
       (pathPrefixStr ++ extOk.productMetadataPath, p)] :=
  (C4_publish_all_or_first_only extOk cmdFetch (Run extOk cmdFetch).1
    (Run extOk cmdFetch).2 rfl).1 (by decide)

/-- C5: if marshalling the record sequence into the index and products
documents fails, `Run` returns that error having attempted the
serialization but written nothing. -/
theorem C5_marshal_failure_no_writes (ext : Ext) (c : ToolsMetadataCommand)
    (ts : List Tool) (evs1 : List Event) (ms : List ToolsMetadata) (e : GoError)
    (hnew : ext.newFromName = Except.ok ())
    (hserve : c.metadataDir ≠ "" → ext.serveLocal = Except.ok ())
    (hfind : ext.findTools = Except.ok ts)
    (hproc : processTools ext c.fetch ts = (evs1, .ok ms))
    (hmarshal : ext.marshal ms = Except.error e) :
    (Run ext c).2 = .fail e ∧
    wroteList (Run ext c).1 = [] ∧
    Event.marshalled ∈ (Run ext c).1 := by
  obtain ⟨dir, hdir⟩ := dirSetup_ok_of ext c hserve
  have hrun : Run ext c = (evs1 ++ [Event.marshalled], .fail e) := by
    unfold Run
    rw [hnew]
    dsimp only
    rw [hdir]
    dsimp only
    rw [hfind]
    dsimp only
    unfold runTail
    rw [hproc]
    dsimp only
    rw [hmarshal]
  have h1 : wroteList evs1 = [] := wroteList_eq_nil_of_benign (fun x hx =>
    processTools_events_benign ext c.fetch ts x (by rw [hproc]; exact hx))
  rw [hrun]
  exact ⟨rfl, by simp [wroteList_append, h1, wroteList], by simp⟩

def extC5 : Ext :=
  { extOk with marshal := fun _ => .error { msg := "bad schema" } }

theorem C5_witness :
    (Run extC5 cmdFetch).2 = .fail { msg := "bad schema" } ∧
    wroteList (Run extC5 cmdFetch).1 = [] ∧
    Event.marshalled ∈ (Run extC5 cmdFetch).1 :=
  C5_marshal_failure_no_writes extC5 cmdFetch [toolA]
    [Event.fetched toolA.url, Event.assembled toolA recA] [recA]
    { msg := "bad schema" } rfl (fun hne => absurd rfl hne) rfl (by decide) rfl

lemma writeObjects_pair_remote_ok (ext : Ext) (p1 p2 : String)
    (d1 d2 : List UInt8) (s1 s2 : String)
    (hs1 : ext.storageURL p1 = Except.ok s1)
    (hs2 : ext.storageURL p2 = Except.ok s2)
    (hp1 : ext.storagePut p1 d1 = Except.ok ())
    (hp2 : ext.storagePut p2 d2 = Except.ok ()) :
    writeObjects ext "" [(p1, d1), (p2, d2)] =
      ([Event.writingLine s1, Event.wrote p1 d1,
        Event.writingLine s2, Event.wrote p2 d2], .ok) := by
  unfold writeObjects
  rw [if_neg (by simp : ¬("" : String) ≠ "")]
  rw [hs1]
  dsimp only
  rw [hp1]
  dsimp only
  unfold writeObjects
  rw [if_neg (by simp : ¬("" : String) ≠ "")]
  rw [hs2]
  dsimp only
  rw [hp2]
  dsimp only
  unfold writeObjects
  rfl

/-- C6: a discovery result with zero candidates is not an error: `Run`
still marshals the (empty) record sequence and publishes the resulting
index and products documents, returning success. -/
theorem C6_empty_discovery_success (ext : Ext) (c : ToolsMetadataCommand)
    (i p : List UInt8)
    (hnew : ext.newFromName = Except.ok ())
    (hdir : c.metadataDir = "")
    (hfind : ext.findTools = Except.ok [])
    (hmarshal : ext.marshal [] = Except.ok (i, p))
    (hurl1 : ∃ s, ext.storageURL
      (pathPrefixStr ++ ext.defaultIndexPath ++ ext.unsignedSuffix) = Except.ok s)
    (hurl2 : ∃ s, ext.storageURL
      (pathPrefixStr ++ ext.productMetadataPath) = Except.ok s)
    (hput1 : ext.storagePut
      (pathPrefixStr ++ ext.defaultIndexPath ++ ext.unsignedSuffix) i = Except.ok ())
    (hput2 : ext.storagePut
      (pathPrefixStr ++ ext.productMetadataPath) p = Except.ok ()) :
    (Run ext c).2 = .ok ∧
    Event.marshalled ∈ (Run ext c).1 ∧
    wroteList (Run ext c).1 =
      [(pathPrefixStr ++ ext.defaultIndexPath ++ ext.unsignedSuffix, i),
       (pathPrefixStr ++ ext.productMetadataPath, p)] := by
  rcases hurl1 with ⟨s1, hs1⟩
  rcases hurl2 with ⟨s2, hs2⟩
  have hd : dirSetup ext c = Except.ok "" := by simp [dirSetup, hdir]
  have hrun : Run ext c =
      ([] ++ [Event.marshalled] ++
        [Event.writingLine s1,
         Event.wrote (pathPrefixStr ++ ext.defaultIndexPath ++ ext.unsignedSuffix) i,
         Event.writingLine s2,
         Event.wrote (pathPrefixStr ++ ext.productMetadataPath) p], .ok) := by
    unfold Run
    rw [hnew]
    dsimp only
    rw [hd]
    dsimp only
    rw [hfind]
    dsimp only
    unfold runTail
    rw [show processTools ext c.fetch [] = ([], StepResult.ok []) from rfl]
    dsimp only
    rw [hmarshal]
    dsimp only
    rw [writeObjects_pair_remote_ok ext _ _ _ _ s1 s2 hs1 hs2 hput1 hput2]
  rw [hrun]
  refine ⟨rfl, by simp, by simp [wroteList]⟩

def extC6 : Ext := { extOk with findTools := .ok [] }

theorem C6_witness :
    (Run extC6 cmdFetch).2 = .ok ∧
    Event.marshalled ∈ (Run extC6 cmdFetch).1 ∧
    wroteList (Run extC6 cmdFetch).1 =
      [(pathPrefixStr ++ extC6.defaultIndexPath ++ extC6.unsignedSuffix, [10]),
       (pathPrefixStr ++ extC6.productMetadataPath, [20])] :=
  C6_empty_discovery_success extC6 cmdFetch [10] [20] rfl rfl rfl rfl
    ⟨_, rfl⟩ ⟨_, rfl⟩ rfl rfl

/-- C7: a successful run has written exactly two objects, the unsigned
index document and then the products document, both under the fixed
prefix; and in local-directory mode the reported `Writing` paths are the
(normalized) local directory joined with each logical path. -/
theorem C7_two_objects_fixed_paths (ext : Ext) (c : ToolsMetadataCommand)
    (evs : List Event) (h : Run ext c = (evs, .ok)) :
    (∃ i p, wroteList evs =
      [(pathPrefixStr ++ ext.defaultIndexPath ++ ext.unsignedSuffix, i),
       (pathPrefixStr ++ ext.productMetadataPath, p)]) ∧
    (c.metadataDir ≠ "" → ext.normalizePath c.metadataDir ≠ "" →
      writingList evs =
        [ext.joinPath (ext.normalizePath c.metadataDir)
          (pathPrefixStr ++ ext.defaultIndexPath ++ ext.unsignedSuffix),
         ext.joinPath (ext.normalizePath c.metadataDir)
          (pathPrefixStr ++ ext.productMetadataPath)]) := by
  rcases Run_ok_inv h with
    ⟨ts, dir, evs1, evs2, metadata, index, products, hnew, hdir, hfind, hp, hm, hw, hevs⟩
  subst hevs
  have h1 : ∀ x ∈ evs1, isProcessEvent x = true := fun x hx =>
    processTools_events_benign ext c.fetch ts x (by rw [hp]; exact hx)
  constructor
  · exact ⟨index, products, by
      simp [wroteList_append, wroteList_eq_nil_of_benign h1, wroteList,
        writeObjects_ok_wrote ext dir _ _ hw]⟩
  · intro hne hnorm
    have hdval : dir = ext.normalizePath c.metadataDir := dirSetup_ok_local hdir hne
    subst hdval
    have hlines := writeObjects_ok_lines ext _ hnorm _ _ hw
    simp [writingList_append, writingList_eq_nil_of_benign h1, writingList, hlines]

theorem C7_witness :
    writingList (Run extOk cmdLocal).1 =
      [extOk.joinPath (extOk.normalizePath cmdLocal.metadataDir)
        (pathPrefixStr ++ extOk.defaultIndexPath ++ extOk.unsignedSuffix),
       extOk.joinPath (extOk.normalizePath cmdLocal.metadataDir)
        (pathPrefixStr ++ extOk.productMetadataPath)] :=
  (C7_two_objects_fixed_paths extOk cmdLocal (Run extOk cmdLocal).1 rfl).2
    (by decide) (by decide)

/-- C9: the path derivation `u.Path[1:]` is not total: a candidate whose
URL parses successfully with an empty path component makes `Run` panic
rather than return an error. -/
theorem C9_empty_path_panics (ext : Ext) (c : ToolsMetadataCommand) (t : Tool)
    (hnew : ext.newFromName = Except.ok ())
    (hserve : c.metadataDir ≠ "" → ext.serveLocal = Except.ok ())
    (hfind : ext.findTools = Except.ok [t])
    (hparse : ext.parseURL t.url = Except.ok { path := "" }) :
    (Run ext c).2 = .panicked "runtime error: slice bounds out of range" ∧
    ∀ e, (Run ext c).2 ≠ .fail e := by
  obtain ⟨dir, hdir⟩ := dirSetup_ok_of ext c hserve
  have hpt : processTool ext c.fetch t =
      ([], .panicked "runtime error: slice bounds out of range") := by
    unfold processTool
    rw [hparse]
    dsimp only
    rw [if_pos rfl]
  have hpts : processTools ext c.fetch [t] =
      ([], StepResult.panicked "runtime error: slice bounds out of range") := by
    unfold processTools
    rw [hpt]
  have hrun : Run ext c =
      ([], .panicked "runtime error: slice bounds out of range") := by
    unfold Run
    rw [hnew]
    dsimp only
    rw [hdir]
    dsimp only
    rw [hfind]
    dsimp only
    unfold runTail
    rw [hpts]
  rw [hrun]
  exact ⟨rfl, fun e he => Outcome.noConfusion he⟩

def extC9 : Ext := { extOk with parseURL := fun _ => .ok { path := "" } }

theorem C9_witness :
    (Run extC9 cmdFetch).2 = .panicked "runtime error: slice bounds out of range" ∧
    ∀ e, (Run extC9 cmdFetch).2 ≠ .fail e :=
  C9_empty_path_panics extC9 cmdFetch toolA rfl (fun hne => absurd rfl hne) rfl rfl

/-- C10: `fetchToolsHash` fails exactly when the HTTP request itself
fails or reading the body fails; it never inspects the status code, so
any response with a readable body — the status being anything, 404 and
500 included — yields success with the size and hash state of exactly
the bytes of that body. -/
theorem C10_no_status_inspection (ext : Ext) (url : String) :
    (∀ e, ext.httpGet url = Except.error e →
      fetchToolsHash ext url = (0, none, some e)) ∧
    (∀ resp, ext.httpGet url = Except.ok resp →
      fetchToolsHash ext url =
        ((resp.body.data.length : Int), some resp.body.data, resp.body.readErr)) := by
  constructor
  · intro e he
    unfold fetchToolsHash
    rw [he]
  · intro resp hr
    unfold fetchToolsHash
    rw [hr]

def ext404 : Ext :=
  { extOk with httpGet :=
      (fun _ => .ok { statusCode := 404, body := { data := [7, 8], readErr := none } }) }

theorem C10_witness :
    fetchToolsHash ext404 "https://host/missing" = (2, some [7, 8], none) :=
  (C10_no_status_inspection ext404 "https://host/missing").2
    { statusCode := 404, body := { data := [7, 8], readErr := none } } rfl

def extC8 : Ext :=
  { extOk with storageURL := fun _ => Except.error { msg := "resolve failed" } }

/-- C8 counterexample: two external worlds that differ only in the
outcome of address resolution give different run outcomes — the failing
resolution aborts the run with its error before anything is written — so
resolution does affect control flow. -/
theorem C8_counterexample :
    (Run extC8 cmdFetch).2 = Outcome.fail { msg := "resolve failed" } ∧
    (Run { extC8 with storageURL := extOk.storageURL } cmdFetch).2 = Outcome.ok ∧
    wroteList (Run extC8 cmdFetch).1 = [] := by
  refine ⟨by decide, by decide, by decide⟩

lemma processTool_url_indep (ext : Ext) (u : String → Except GoError String)
    (f : Bool) (t : Tool) :
    processTool { ext with storageURL := u } f t = processTool ext f t := rfl

lemma processTools_url_indep (ext : Ext) (u : String → Except GoError String)
    (f : Bool) : ∀ ts : List Tool,
    processTools { ext with storageURL := u } f ts = processTools ext f ts := by
  intro ts
  induction ts with
  | nil => rfl
  | cons t ts ih =>
    unfold processTools
    rw [processTool_url_indep, ih]

lemma writeObjects_url_indep (ext : Ext) (dir : String)
    (f g : String → Except GoError String)
    (hf : ∀ s, ∃ v, f s = Except.ok v) (hg : ∀ s, ∃ v, g s = Except.ok v) :
    ∀ objs : List (String × List UInt8),
      (writeObjects { ext with storageURL := f } dir objs).2 =
        (writeObjects { ext with storageURL := g } dir objs).2 ∧
      wroteList (writeObjects { ext with storageURL := f } dir objs).1 =
        wroteList (writeObjects { ext with storageURL := g } dir objs).1 := by
  intro objs
  induction objs with
  | nil => exact ⟨rfl, rfl⟩
  | cons od rest ih =>
    rcases od with ⟨p, dta⟩
    rcases ih with ⟨iho, ihw⟩
    unfold writeObjects
    by_cases hd : dir = ""
    · subst hd
      rcases hf p with ⟨v1, hv1⟩
      rcases hg p with ⟨v2, hv2⟩
      rw [if_neg (by simp : ¬("" : String) ≠ "")]
      rw [if_neg (by simp : ¬("" : String) ≠ "")]
      rw [show ({ ext with storageURL := f } : Ext).storageURL = f from rfl,
          show ({ ext with storageURL := g } : Ext).storageURL = g from rfl,
          hv1, hv2]
      dsimp only
      rw [show ({ ext with storageURL := f } : Ext).storagePut = ext.storagePut from rfl,
          show ({ ext with storageURL := g } : Ext).storagePut = ext.storagePut from rfl]
      cases hput : ext.storagePut p dta with
      | error e => exact ⟨rfl, rfl⟩
      | ok _ =>
        dsimp only
        rcases hwf : writeObjects { ext with storageURL := f } "" rest with ⟨evsF, oF⟩
        rcases hwg : writeObjects { ext with storageURL := g } "" rest with ⟨evsG, oG⟩
        rw [hwf, hwg] at iho ihw
        dsimp only at iho ihw
        dsimp only
        exact ⟨iho, by simp [wroteList, ihw]⟩
    · rw [if_pos hd]
      rw [if_pos hd]
      rw [show ({ ext with storageURL := f } : Ext).joinPath = ext.joinPath from rfl,
          show ({ ext with storageURL := g } : Ext).joinPath = ext.joinPath from rfl]
      dsimp only
      rw [show ({ ext with storageURL := f } : Ext).storagePut = ext.storagePut from rfl,
          show ({ ext with storageURL := g } : Ext).storagePut = ext.storagePut from rfl]
      cases hput : ext.storagePut p dta with
      | error e => exact ⟨rfl, rfl⟩
      | ok _ =>
        dsimp only
        rcases hwf : writeObjects { ext with storageURL := f } dir rest with ⟨evsF, oF⟩
        rcases hwg : writeObjects { ext with storageURL := g } dir rest with ⟨evsG, oG⟩
        rw [hwf, hwg] at iho ihw
        dsimp only at iho ihw
        dsimp only
        exact ⟨iho, by simp [wroteList, ihw]⟩

lemma runTail_url_indep (ext : Ext) (fch : Bool) (dir : String) (ts : List Tool)
    (f g : String → Except GoError String)
    (hf : ∀ s, ∃ v, f s = Except.ok v) (hg : ∀ s, ∃ v, g s = Except.ok v) :
    (runTail { ext with storageURL := f } fch dir ts).2 =
      (runTail { ext with storageURL := g } fch dir ts).2 ∧
    wroteList (runTail { ext with storageURL := f } fch dir ts).1 =
      wroteList (runTail { ext with storageURL := g } fch dir ts).1 := by
  unfold runTail
  rw [processTools_url_indep ext f fch, processTools_url_indep ext g fch]
  rcases hp : processTools ext fch ts with ⟨evs1, r⟩
  cases r with
  | fail e => exact ⟨by dsimp only, by dsimp only⟩
  | panicked s => exact ⟨by dsimp only, by dsimp only⟩
  | ok metadata =>
    dsimp only
    rw [show ({ ext with storageURL := f } : Ext).marshal = ext.marshal from rfl,
        show ({ ext with storageURL := g } : Ext).marshal = ext.marshal from rfl]
    cases hm : ext.marshal metadata with
    | error e => exact ⟨by dsimp only, by dsimp only⟩
    | ok pair =>
      rcases pair with ⟨index, products⟩
      dsimp only
      rw [show ({ ext with storageURL := f } : Ext).defaultIndexPath
            = ext.defaultIndexPath from rfl,
          show ({ ext with storageURL := g } : Ext).defaultIndexPath
            = ext.defaultIndexPath from rfl,
          show ({ ext with storageURL := f } : Ext).unsignedSuffix
            = ext.unsignedSuffix from rfl,
          show ({ ext with storageURL := g } : Ext).unsignedSuffix
            = ext.unsignedSuffix from rfl,
          show ({ ext with storageURL := f } : Ext).productMetadataPath
            = ext.productMetadataPath from rfl,
          show ({ ext with storageURL := g } : Ext).productMetadataPath
            = ext.productMetadataPath from rfl]
      rcases writeObjects_url_indep ext dir f g hf hg
        [(pathPrefixStr ++ ext.defaultIndexPath ++ ext.unsignedSuffix, index),
         (pathPrefixStr ++ ext.productMetadataPath, products)] with ⟨iho, ihw⟩
      rcases hwf : writeObjects { ext with storageURL := f } dir
        [(pathPrefixStr ++ ext.defaultIndexPath ++ ext.unsignedSuffix, index),
         (pathPrefixStr ++ ext.productMetadataPath, products)] with ⟨evsF, oF⟩
      rcases hwg : writeObjects { ext with storageURL := g } dir
        [(pathPrefixStr ++ ext.defaultIndexPath ++ ext.unsignedSuffix, index),
         (pathPrefixStr ++ ext.productMetadataPath, products)] with ⟨evsG, oG⟩
      rw [hwf, hwg] at iho ihw
      dsimp only at iho ihw
      dsimp only
      exact ⟨iho, by simp [wroteList_append, wroteList, ihw]⟩

/-- C8 as amended: the *value* a successful address resolution returns
is used only for the `Writing` progress line: two resolvers that both
succeed (with arbitrary addresses) give the same outcome and the same
written objects.  A *failing* resolution, however, aborts the run (see
the counterexample). -/
theorem C8_amended_resolution_value_only_reporting (ext : Ext)
    (c : ToolsMetadataCommand) (f g : String → Except GoError String)
    (hf : ∀ s, ∃ v, f s = Except.ok v) (hg : ∀ s, ∃ v, g s = Except.ok v) :
    (Run { ext with storageURL := f } c).2 =
      (Run { ext with storageURL := g } c).2 ∧
    wroteList (Run { ext with storageURL := f } c).1 =
      wroteList (Run { ext with storageURL := g } c).1 := by
  generalize hE1 : ({ ext with storageURL := f } : Ext) = E1
  generalize hE2 : ({ ext with storageURL := g } : Ext) = E2
  have h1n : E1.newFromName = ext.newFromName := by rw [← hE1]
  have h2n : E2.newFromName = ext.newFromName := by rw [← hE2]
  have h1d : dirSetup E1 c = dirSetup ext c := by rw [← hE1]; rfl
  have h2d : dirSetup E2 c = dirSetup ext c := by rw [← hE2]; rfl
  have h1f : E1.findTools = ext.findTools := by rw [← hE1]
  have h2f : E2.findTools = ext.findTools := by rw [← hE2]
  unfold Run
  rw [h1n, h2n, h1d, h2d, h1f, h2f]
  cases hn : ext.newFromName with
  | error e => exact ⟨by dsimp only, by dsimp only⟩
  | ok _ =>
    dsimp only
    cases hd : dirSetup ext c with
    | error e => exact ⟨by dsimp only, by dsimp only⟩
    | ok dir =>
      dsimp only
      cases hft : ext.findTools with
      | error e => exact ⟨by dsimp only, by dsimp only⟩
      | ok ts =>
        dsimp only
        rw [← hE1, ← hE2]
        exact runTail_url_indep ext c.fetch dir ts f g hf hg

theorem C8_amended_witness :
    (Run { extOk with storageURL := (fun p => Except.ok ("https://a/" ++ p)) } cmdFetch).2 =
      (Run { extOk with storageURL := (fun p => Except.ok ("https://b/" ++ p)) } cmdFetch).2 ∧
    wroteList (Run { extOk with storageURL := (fun p => Except.ok ("https://a/" ++ p)) } cmdFetch).1 =
      wroteList (Run { extOk with storageURL := (fun p => Except.ok ("https://b/" ++ p)) } cmdFetch).1 :=
  C8_amended_resolution_value_only_reporting extOk cmdFetch
    (fun p => Except.ok ("https://a/" ++ p)) (fun p => Except.ok ("https://b/" ++ p))
    (fun s => ⟨"https://a/" ++ s, rfl⟩) (fun s => ⟨"https://b/" ++ s, rfl⟩)

end ToolsMetadataGen

